import Mathlib

/-!
Verification of the liquidity-premium signal pipeline of
src/liquidity_premium_monitor.py (and its duplicate under src/downloader/).

Modelling conventions of the shallow embedding:

* Python floats are modelled as exact rationals.  Decimal literals of the
  source (0.4, 0.15, 0.3, 4.0, ...) denote the corresponding exact
  rationals.
* A possibly-missing float cell (a pandas value that may be NaN) is
  modelled as an optional rational; a missing value is propagated exactly
  as pandas propagates NaN through arithmetic.
* Division by zero: pandas produces NaN for 0/0 and an IEEE infinity for
  x/0 with x nonzero.  The embedding conflates the infinite case with the
  missing case (see cellDiv); no verified claim distinguishes the two,
  since every downstream consumer either clips values into a bounded
  range or only inspects definedness.
* The floating-point square root appears only inside the vol-ratio
  indicator chain, whose cell values are never inspected by a verified
  claim; it is abstracted as an arbitrary function on rationals
  (a parameter of compute_indicators) rather than stubbed to a fixed
  value, so every theorem below holds for any square-root realisation.
* Dates are day numbers (an arbitrary epoch with day 0 a Monday, so a
  day is a Friday exactly when its number is congruent to 4 modulo 7).
* The source also supports a monthly resolution (calendar month-end
  buckets).  No claim concerns it and it is not embedded; the resolution
  type below carries the daily and weekly resolutions the claims use.
-/

namespace LPM

/-- A possibly-missing float cell of a pandas series: none models NaN. -/
abbrev Cell := Option ℚ

/-- Cell of a series at an index: out of range counts as missing. -/
def cellAt (xs : List Cell) (i : Nat) : Cell := (xs[i]?).join

/-- Entry of an everywhere-defined series at an index (default 0 out of range). -/
def atD (xs : List ℚ) (i : Nat) : ℚ := xs.getD i 0

/-- Pointwise addition with NaN propagation. -/
def cellAdd : Cell → Cell → Cell
  | some a, some b => some (a + b)
  | _, _ => none

/-- Pointwise subtraction with NaN propagation. -/
def cellSub : Cell → Cell → Cell
  | some a, some b => some (a - b)
  | _, _ => none

/-- Pointwise division with pandas missing-value semantics.  NaN operands
propagate.  A zero divisor yields a missing value: for a zero numerator this
is exactly pandas (0/0 is NaN); for a nonzero numerator pandas produces an
IEEE infinity, conflated here with missing as explained in the file header. -/
def cellDiv : Cell → Cell → Cell
  | some a, some b => if b = 0 then none else some (a / b)
  | _, _ => none

/-- Scalar multiple of a cell; NaN propagates. -/
def cellSMul (q : ℚ) : Cell → Cell := Option.map (fun x => q * x)

/-- Clip a rational to the closed interval from lo to hi. -/
def clipQ (lo hi x : ℚ) : ℚ := min (max x lo) hi

/-- Series clip: NaN cells stay NaN, exactly as pandas clip. -/
def cellClip (lo hi : ℚ) : Cell → Cell := Option.map (clipQ lo hi)

/-- Arithmetic mean of a list of rationals (0 on the empty list). -/
def meanQ (l : List ℚ) : ℚ := l.sum / l.length

/-- Insert into a sorted list of rationals (ascending). -/
def insertQ (x : ℚ) : List ℚ → List ℚ
  | [] => [x]
  | y :: ys => if x ≤ y then x :: y :: ys else y :: insertQ x ys

/-- Insertion sort on rationals, ascending. -/
def sortQ : List ℚ → List ℚ
  | [] => []
  | x :: xs => insertQ x (sortQ xs)

/-- Median as pandas computes it: middle element of the sorted values, or
the average of the two middle elements for an even count. -/
def medianQ (l : List ℚ) : ℚ :=
  let s := sortQ l
  if l.length % 2 = 1 then s.getD (l.length / 2) 0
  else (s.getD (l.length / 2 - 1) 0 + s.getD (l.length / 2) 0) / 2

/-- Sample variance with one delta degree of freedom, as pandas rolling std
squares it.  Only ever applied to windows of at least two values here. -/
def svarQ (l : List ℚ) : ℚ :=
  (l.map (fun x => (x - meanQ l) * (x - meanQ l))).sum / ((l.length : ℚ) - 1)

/-- Maximum of a list of rationals (0 on the empty list; every use below is
guarded by a nonzero minimum-period requirement). -/
def maxAgg : List ℚ → ℚ
  | [] => 0
  | x :: xs => xs.foldl max x

/-- Minimum of a list of rationals (0 on the empty list). -/
def minAgg : List ℚ → ℚ
  | [] => 0
  | x :: xs => xs.foldl min x

/-- Row indices covered by a pandas rolling window of width w at index i.
A trailing window covers the w rows ending at i; a centered window covers
the rows from i minus (w-1)/2 to i plus w/2, the convention pandas uses for
center=True (for w = 2 the window holds rows i and i+1).  Natural-number
subtraction clamps the left edge at the start of the series. -/
def windowIdx (center : Bool) (w i : Nat) : List Nat :=
  let lo := if center then i - (w - 1) / 2 else i - (w - 1)
  let hi := if center then i + w / 2 else i
  (List.range (hi + 1 - lo)).map (fun k => lo + k)

/-- The defined values inside a rolling window: indices beyond either end of
the series and NaN cells contribute nothing, exactly as pandas counts
observations for its min-periods test. -/
def windowVals (center : Bool) (w : Nat) (xs : List Cell) (i : Nat) : List ℚ :=
  ((windowIdx center w i).map (fun j => xs[j]?)).filterMap Option.join

/-- Pandas rolling aggregation: at each index, apply the aggregator to the
defined values of the window if at least m of them exist, else NaN. -/
def roll (w m : Nat) (center : Bool) (f : List ℚ → ℚ) (xs : List Cell) : List Cell :=
  (List.range xs.length).map (fun i =>
    let vs := windowVals center w xs i
    if m ≤ vs.length then some (f vs) else none)

/-- Pandas pct_change on an everywhere-defined series: NaN at index 0, then
the relative change against the previous entry (missing on a zero previous
entry, per the division convention of the file header). -/
def pct_change (xs : List ℚ) : List Cell :=
  (List.range xs.length).map (fun i =>
    match i with
    | 0 => none
    | j + 1 => if xs.getD j 0 = 0 then none else some (xs.getD (j + 1) 0 / xs.getD j 0 - 1))

/-- One step of the exponentially weighted mean recurrence with adjust=False. -/
def ewmStep (alpha y x : ℚ) : ℚ := (1 - alpha) * y + alpha * x

/-- Exponentially weighted moving mean with adjust=False, as ewm().mean()
computes it on a series with no missing values. -/
def ewmMean (alpha : ℚ) : List ℚ → List ℚ
  | [] => []
  | x :: xs => List.scanl (ewmStep alpha) x xs

/-- The smoothing factor pandas derives from a span argument. -/
def spanAlpha (span : ℚ) : ℚ := 2 / (span + 1)

/-- Pointwise combination of two aligned series (pandas arithmetic on two
series sharing one index; the columns combined below always have equal
length, so the length truncation is never exercised). -/
def zipCells (f : Cell → Cell → Cell) (as_ bs : List Cell) : List Cell :=
  (List.range (min as_.length bs.length)).map (fun i => f (cellAt as_ i) (cellAt bs i))

/-- One OHLCV bar: a date (day number) with open, high, low, close, volume. -/
structure Bar where
  date : Nat
  open_ : ℚ
  high : ℚ
  low : ℚ
  close : ℚ
  volume : ℚ
deriving DecidableEq, Repr

/-- Insert a bar into a list sorted ascending by date, before the first bar
of greater-or-equal date (a stable insertion, matching the stable sort of
pandas sort_index). -/
def insertBar (b : Bar) : List Bar → List Bar
  | [] => [b]
  | c :: cs => if b.date ≤ c.date then b :: c :: cs else c :: insertBar b cs

/-- Stable sort of bars ascending by date (pandas set_index + sort_index). -/
def sortByDate : List Bar → List Bar
  | [] => []
  | b :: bs => insertBar b (sortByDate bs)

/-- The Friday on or after a day number: the W-FRI resampling bucket label
of that day (day 0 is a Monday, so Fridays are the days congruent to 4
modulo 7). -/
def weekKey (d : Nat) : Nat := d + (11 - d % 7) % 7

/-- All Friday labels from lo to hi inclusive, where lo and hi are Fridays:
the full run of weekly periods pandas resample generates, empty buckets
included. -/
def fridayRange (lo hi : Nat) : List Nat :=
  (List.range ((hi - lo) / 7 + 1)).map (fun j => lo + 7 * j)

/-- First element of a rational list, if any. -/
def firstQ (l : List ℚ) : Option ℚ := l.head?

/-- Last element of a rational list, if any. -/
def lastQ (l : List ℚ) : Option ℚ := l.getLast?

/-- Maximum of a rational list, if any (resample max of a possibly empty
group: NaN on an empty group). -/
def maxQ : List ℚ → Option ℚ
  | [] => none
  | x :: xs => some (xs.foldl max x)

/-- Minimum of a rational list, if any. -/
def minQ : List ℚ → Option ℚ
  | [] => none
  | x :: xs => some (xs.foldl min x)

/-- The five aggregate columns of one weekly bucket before the dropna pass:
first open, max high, min low, last close, summed volume.  On an empty
bucket the first four are missing and the volume sum is 0, exactly the
column aggregates pandas resample produces. -/
structure RawBucket where
  date : Nat
  open_ : Option ℚ
  high : Option ℚ
  low : Option ℚ
  close : Option ℚ
  volume : ℚ
deriving DecidableEq, Repr

/-- The raw weekly bucket for label k: aggregates over the bars of the
sorted series whose dates fall in that week. -/
def rawBucketAt (s : List Bar) (k : Nat) : RawBucket :=
  let g := s.filter (fun x => weekKey x.date = k)
  { date := k
    open_ := firstQ (g.map Bar.open_)
    high := maxQ (g.map Bar.high)
    low := minQ (g.map Bar.low)
    close := lastQ (g.map Bar.close)
    volume := (g.map Bar.volume).sum }

/-- The dropna pass over a raw bucket row: the row survives exactly when
every column is defined. -/
def dropnaBucket (r : RawBucket) : Option Bar :=
  match r.open_, r.high, r.low, r.close with
  | some o, some h, some l, some c =>
      some { date := r.date, open_ := o, high := h, low := l, close := c, volume := r.volume }
  | _, _, _, _ => none

/-- Weekly OHLCV resampling as the source performs it: sort by date, build
one raw bucket per Friday label spanning the data, aggregate each column
(first, max, min, last, sum), then drop the rows with a missing column. -/
def resampleWeekly (df : List Bar) : List Bar :=
  match sortByDate df with
  | [] => []
  | b :: bs =>
      let s := b :: bs
      let lo := weekKey b.date
      let hi := weekKey ((bs.getLastD b).date)
      ((fridayRange lo hi).map (rawBucketAt s)).filterMap dropnaBucket

/-- The two time resolutions the claims concern (the source additionally
supports a monthly resolution, see the file header). -/
inductive Agg where
  | daily
  | weekly
deriving DecidableEq, Repr

/-- resample_ohlcv of the source: the daily resolution returns a copy of
the input, the weekly resolution buckets by W-FRI. -/
def resample_ohlcv (df : List Bar) : Agg → List Bar
  | Agg.daily => df
  | Agg.weekly => resampleWeekly df

/-- A bar series annotated with the derived indicator columns. -/
structure IndFrame where
  bars : List Bar
  ret : List Cell
  vol_change : List ℚ
  vol_amp : List Cell
  vol_ratio : List Cell
  valuation : List Cell
  sentiment : List Cell
deriving DecidableEq, Repr

/-- Number of rows of an annotated frame. -/
def nrows (df : IndFrame) : Nat := df.bars.length

/-- Close column of a bar series. -/
def closes (dfa : List Bar) : List ℚ := dfa.map Bar.close

/-- Volume column of a bar series. -/
def volumes (dfa : List Bar) : List ℚ := dfa.map Bar.volume

/-- The ret column: pct_change of close. -/
def retCol (dfa : List Bar) : List Cell := pct_change (closes dfa)

/-- The vol-amp column: the 50/50 blend of the span-2 over span-8
exponentially weighted volume-mean ratio with the ratio of volume to its
centered 10-bar rolling median (minimum 5), smoothed by a trailing 2-bar
mean requiring both bars. -/
def vol_amp_col (dfa : List Bar) : List Cell :=
  let v := volumes dfa
  let ew_short := ewmMean (spanAlpha 2) v
  let ew_long := ewmMean (spanAlpha 8) v
  let vol_ew_ratio := zipCells cellDiv (ew_short.map some) (ew_long.map some)
  let vol_med := roll 10 5 true medianQ (v.map some)
  let vol_rel_med := zipCells cellDiv (v.map some) vol_med
  let vol_component := zipCells cellAdd (vol_ew_ratio.map (cellSMul 0.5)) (vol_rel_med.map (cellSMul 0.5))
  roll 2 2 false meanQ vol_component

/-- The annualisation constant: 252 for daily bars, 52 otherwise. -/
def annualOf : Agg → ℚ
  | Agg.daily => 252
  | Agg.weekly => 52

/-- The vol-ratio column: fast over slow annualised realised volatility of
ret (trailing std windows 2 and 8, minimum 2 and 4), smoothed by a trailing
2-bar mean.  The square-root realisation is a parameter (file header). -/
def vol_ratio_col (sqrtQ : ℚ → ℚ) (dfa : List Bar) (agg : Agg) : List Cell :=
  let r := retCol dfa
  let annual := annualOf agg
  let rv_fast := (roll 2 2 false (fun l => sqrtQ (svarQ l)) r).map (Option.map (fun x => x * sqrtQ annual))
  let rv_slow := (roll 8 4 false (fun l => sqrtQ (svarQ l)) r).map (Option.map (fun x => x * sqrtQ annual))
  roll 2 2 false meanQ (zipCells cellDiv rv_fast rv_slow)

/-- The valuation column: close over its trailing 10-bar mean (minimum 5),
smoothed by a centered 2-bar mean (minimum the full window of 2, the pandas
default). -/
def valuation_col (dfa : List Bar) : List Cell :=
  let c := closes dfa
  let ma := roll 10 5 false meanQ (c.map some)
  roll 2 2 true meanQ (zipCells cellDiv (c.map some) ma)

/-- The sentiment column: position of close inside its trailing 10-bar
range (minimum 5), clipped to the unit interval, smoothed by a centered
2-bar mean with minimum 2. -/
def sentiment_col (dfa : List Bar) : List Cell :=
  let c := closes dfa
  let roll_max := roll 10 5 false maxAgg (c.map some)
  let roll_min := roll 10 5 false minAgg (c.map some)
  let raw := (zipCells cellDiv (zipCells cellSub (c.map some) roll_min)
      (zipCells cellSub roll_max roll_min)).map (cellClip 0 1)
  roll 2 2 true meanQ raw

/-- The vol-change column: pct_change of volume clipped to the interval
from -2 to 2, with missing entries replaced by 0. -/
def vol_change_col (dfa : List Bar) : List ℚ :=
  (pct_change (volumes dfa)).map (fun c => ((cellClip (-2) 2 c).getD 0))

/-- Body of compute_indicators after its resampling first line: attach the
derived columns to the already-resampled bar series. -/
def indicator_columns (sqrtQ : ℚ → ℚ) (dfa : List Bar) (agg : Agg) : IndFrame :=
  { bars := dfa
    ret := retCol dfa
    vol_change := vol_change_col dfa
    vol_amp := vol_amp_col dfa
    vol_ratio := vol_ratio_col sqrtQ dfa agg
    valuation := valuation_col dfa
    sentiment := sentiment_col dfa }

/-- compute_indicators of the source: resample to the target resolution,
then derive the indicator columns. -/
def compute_indicators (sqrtQ : ℚ → ℚ) (df : List Bar) (agg : Agg) : IndFrame :=
  indicator_columns sqrtQ (resample_ohlcv df agg) agg

/-- An annotated frame extended with the lp-score column. -/
structure ScoredFrame where
  bars : List Bar
  ret : List Cell
  vol_change : List ℚ
  vol_amp : List Cell
  vol_ratio : List Cell
  valuation : List Cell
  sentiment : List Cell
  lp_score : List Cell
deriving DecidableEq, Repr

/-- The inner norm of compute_score: clip a factor series to the band from
0.3 to 4.0. -/
def norm (s : List Cell) : List Cell := s.map (cellClip 0.3 4.0)

/-- The raw pre-smoothing composite score at one row: the weighted sum of
the clipped factors, the rescaled sentiment (missing defaulted to 0.5, then
doubled) and 0.15 times the volume change.  A missing clipped factor makes
the row's score missing, as NaN addition does in pandas. -/
def scoreAt (df : IndFrame) (w_vol w_var w_val w_sent : ℚ) (i : Nat) : Cell :=
  match cellAt (norm df.vol_amp) i, cellAt (norm df.vol_ratio) i, cellAt (norm df.valuation) i with
  | some v, some r, some val =>
      some (w_vol * v + w_var * r + w_val * val
        + w_sent * ((cellAt df.sentiment i).getD 0.5 * 2) + 0.15 * atD df.vol_change i)
  | _, _, _ => none

/-- The raw pre-smoothing score series of compute_score. -/
def rawScore (df : IndFrame) (w_vol w_var w_val w_sent : ℚ) : List Cell :=
  (List.range (nrows df)).map (scoreAt df w_vol w_var w_val w_sent)

/-- compute_score of the source: copy the frame and attach lp_score, the
centered 2-bar mean (minimum 2) of the raw composite score. -/
def compute_score (df : IndFrame) (w_vol w_var w_val w_sent : ℚ) : ScoredFrame :=
  { bars := df.bars
    ret := df.ret
    vol_change := df.vol_change
    vol_amp := df.vol_amp
    vol_ratio := df.vol_ratio
    valuation := df.valuation
    sentiment := df.sentiment
    lp_score := roll 2 2 true meanQ (rawScore df w_vol w_var w_val w_sent) }

/-- compute_score at its default weights, as both entry points invoke it. -/
def compute_score_default (df : IndFrame) : ScoredFrame :=
  compute_score df 0.4 0.3 0.2 0.1

/-- The two pipeline runs of main: the daily and the weekly annotated
series, each derived from the same source daily series. -/
def runPipeline (sqrtQ : ℚ → ℚ) (df : List Bar) : ScoredFrame × ScoredFrame :=
  (compute_score_default (compute_indicators sqrtQ df Agg.daily),
   compute_score_default (compute_indicators sqrtQ df Agg.weekly))

/-- The per-instrument driver logic of main around the pipeline: when the
fetched data is absent or empty the instrument is skipped (an error line is
printed and the loop continues); otherwise both pipeline runs execute. -/
def mainStock (sqrtQ : ℚ → ℚ) (fetched : Option (List Bar)) : Option (ScoredFrame × ScoredFrame) :=
  match fetched with
  | none => none
  | some df => if df = [] then none else some (runPipeline sqrtQ df)

/-- The constituent bars of the weekly bucket labelled k: the input bars
whose dates fall in the week ending on that Friday.  This is the
specification-side notion of a bucket's contributing bars, against which
the columnar resampling of the source is verified. -/
def constituents (df : List Bar) (k : Nat) : List Bar :=
  df.filter (fun x => weekKey x.date = k)

/-- The specification of one weekly output bucket, per the spec text: its
constituents are nonempty (empty buckets are dropped), its open is the
first constituent's open, its high and low are the maximum high and the
minimum low over the constituents, its close is the last constituent's
close, and its volume is the exact sum of constituent volumes. -/
def bucketSpec (df : List Bar) (b : Bar) : Prop :=
  constituents df b.date ≠ [] ∧
  ((constituents df b.date).map Bar.open_).head? = some b.open_ ∧
  b.high ∈ (constituents df b.date).map Bar.high ∧
  (∀ x ∈ (constituents df b.date).map Bar.high, x ≤ b.high) ∧
  b.low ∈ (constituents df b.date).map Bar.low ∧
  (∀ x ∈ (constituents df b.date).map Bar.low, b.low ≤ x) ∧
  ((constituents df b.date).map Bar.close).getLast? = some b.close ∧
  b.volume = ((constituents df b.date).map Bar.volume).sum

/-- A single concrete bar on a Friday, used by witness instantiations. -/
def wBar : Bar := { date := 4, open_ := 2, high := 3, low := 1, close := 2, volume := 5 }

/-- A one-row annotated frame with unit factor cells, raw sentiment one
half and zero volume change, used by witness instantiations. -/
def wFrame : IndFrame :=
  { bars := [wBar]
    ret := [none]
    vol_change := [0]
    vol_amp := [some 1]
    vol_ratio := [some 1]
    valuation := [some 1]
    sentiment := [some (1 / 2)] }

/-- A six-bar daily series whose close rises from 0 and then stays at 1,
with constant unit volume, used by witness instantiations. -/
def wSeries : List Bar :=
  [⟨0, 0, 0, 0, 0, 1⟩, ⟨1, 1, 1, 1, 1, 1⟩, ⟨2, 1, 1, 1, 1, 1⟩,
   ⟨3, 1, 1, 1, 1, 1⟩, ⟨4, 1, 1, 1, 1, 1⟩, ⟨7, 1, 1, 1, 1, 1⟩]

/-- A Thursday bar, used by the weekly-resampling witness. -/
def wB1 : Bar := ⟨3, 10, 30, 5, 20, 100⟩

/-- A Friday bar of the same week, used by the weekly-resampling witness. -/
def wB2 : Bar := ⟨4, 11, 25, 7, 21, 50⟩

/-- The weekly bucket the two bars above aggregate to. -/
def wBucket : Bar := ⟨4, 10, 30, 5, 21, 150⟩

end LPM

namespace LPM

/-! ### Indexing lemmas for the rolling-window machinery -/

theorem getElem?_rangeMap {α : Type*} (g : Nat → α) (n i : Nat) :
    ((List.range n).map g)[i]? = if i < n then some (g i) else none := by
  rw [List.getElem?_map]
  by_cases h : i < n
  · rw [List.getElem?_range h]
    simp [h]
  · rw [List.getElem?_eq_none (by simpa using Nat.le_of_not_lt h)]
    simp [h]

theorem roll_length (w m : Nat) (c : Bool) (f : List ℚ → ℚ) (xs : List Cell) :
    (roll w m c f xs).length = xs.length := by
  simp [roll]

theorem roll_getElem? (w m : Nat) (c : Bool) (f : List ℚ → ℚ) (xs : List Cell)
    (i : Nat) (h : i < xs.length) :
    (roll w m c f xs)[i]? =
      some (if m ≤ (windowVals c w xs i).length then some (f (windowVals c w xs i)) else none) := by
  simp [roll, getElem?_rangeMap, h]

theorem cellAt_oob {xs : List Cell} {i : Nat} (h : xs.length ≤ i) : cellAt xs i = none := by
  simp [cellAt, List.getElem?_eq_none h]

theorem cellAt_roll_oob {w m : Nat} {c : Bool} {f : List ℚ → ℚ} {xs : List Cell} {i : Nat}
    (h : xs.length ≤ i) : cellAt (roll w m c f xs) i = none :=
  cellAt_oob (by simpa [roll_length] using h)

theorem windowVals_trailing_length_le (w : Nat) (xs : List Cell) (i : Nat) :
    (windowVals false w xs i).length ≤ i + 1 := by
  calc (windowVals false w xs i).length
      ≤ ((windowIdx false w i).map (fun j => xs[j]?)).length :=
        List.length_filterMap_le _ _
    _ ≤ i + 1 := by
        simp only [windowIdx, List.length_map, List.length_range, Bool.false_eq_true, if_false]
        omega

/-- A trailing rolling window with minimum period m is missing at every
index before m-1: fewer than m observations can exist there. -/
theorem cellAt_roll_trailing_early (w m : Nat) (f : List ℚ → ℚ) (xs : List Cell)
    (i : Nat) (h : i + 1 < m) : cellAt (roll w m false f xs) i = none := by
  rcases Nat.lt_or_ge i xs.length with hi | hi
  · rw [cellAt, roll_getElem? w m false f xs i hi]
    have hlen : ¬ m ≤ (windowVals false w xs i).length :=
      fun hc => absurd (le_trans hc (windowVals_trailing_length_le w xs i)) (Nat.not_le.mpr h)
    simp [hlen]
  · exact cellAt_roll_oob hi

theorem windowIdx_centered_two (i : Nat) : windowIdx true 2 i = [i, i + 1] := by
  have h1 : i - (2 - 1) / 2 = i := by omega
  have h2 : i + 2 / 2 + 1 - i = 2 := by omega
  simp only [windowIdx, if_true, h1, h2]
  rfl

theorem windowVals_centered_two (xs : List Cell) (i : Nat) :
    windowVals true 2 xs i = [xs[i]?, xs[i + 1]?].filterMap Option.join := by
  simp [windowVals, windowIdx_centered_two]

/-- A centered 2-bar window whose right neighbour is out of range holds at
most one observation. -/
theorem windowVals_two_last_le (xs : List Cell) (i : Nat) (h : xs.length ≤ i + 1) :
    (windowVals true 2 xs i).length ≤ 1 := by
  rw [windowVals_centered_two, List.getElem?_eq_none h]
  cases hj : xs[i]? with
  | none => simp [List.filterMap_cons]
  | some c => cases c <;> simp [List.filterMap_cons]

/-- At an in-range index whose right neighbour is out of range, the
centered 2-bar smoothing with minimum period 2 stores a missing value. -/
theorem roll2c_getElem?_last (f : List ℚ → ℚ) (xs : List Cell) (i : Nat)
    (hi : i < xs.length) (h : xs.length ≤ i + 1) :
    (roll 2 2 true f xs)[i]? = some none := by
  rw [roll_getElem? 2 2 true f xs i hi]
  have hv := windowVals_two_last_le xs i h
  rw [if_neg (by omega : ¬ 2 ≤ (windowVals true 2 xs i).length)]

theorem cellAt_roll2c_last (f : List ℚ → ℚ) (xs : List Cell) (i : Nat)
    (h : xs.length ≤ i + 1) : cellAt (roll 2 2 true f xs) i = none := by
  rcases Nat.lt_or_ge i xs.length with hi | hi
  · rw [cellAt, roll2c_getElem?_last f xs i hi h]
    rfl
  · exact cellAt_roll_oob hi

/-- A missing join comes from a missing or NaN cell. -/
theorem join_eq_none {o : Option Cell} (h : o.join = none) : o = none ∨ o = some none := by
  cases o with
  | none => exact Or.inl rfl
  | some c =>
      cases c with
      | none => exact Or.inr rfl
      | some v => simp [Option.join] at h

/-- A centered 2-bar window both of whose cells are missing yields no
observations. -/
theorem windowVals_two_none (xs : List Cell) (i : Nat)
    (h0 : cellAt xs i = none) (h1 : cellAt xs (i + 1) = none) :
    windowVals true 2 xs i = [] := by
  rw [windowVals_centered_two]
  rw [cellAt] at h0 h1
  rcases join_eq_none h0 with h0' | h0' <;> rcases join_eq_none h1 with h1' | h1' <;>
    rw [h0', h1'] <;> rfl

theorem cellAt_roll2c_both_none (f : List ℚ → ℚ) (xs : List Cell) (i : Nat)
    (h0 : cellAt xs i = none) (h1 : cellAt xs (i + 1) = none) :
    cellAt (roll 2 2 true f xs) i = none := by
  rcases Nat.lt_or_ge i xs.length with hi | hi
  · rw [cellAt, roll_getElem? 2 2 true f xs i hi, windowVals_two_none xs i h0 h1]
    rfl
  · exact cellAt_roll_oob hi

theorem zipCells_length (f : Cell → Cell → Cell) (as_ bs : List Cell) :
    (zipCells f as_ bs).length = min as_.length bs.length := by
  simp [zipCells]

theorem cellAt_zipCells_lt {f : Cell → Cell → Cell} {as_ bs : List Cell} {i : Nat}
    (h : i < min as_.length bs.length) :
    cellAt (zipCells f as_ bs) i = f (cellAt as_ i) (cellAt bs i) := by
  rw [cellAt, zipCells, getElem?_rangeMap, if_pos h]
  rfl

theorem cellAt_zipCells_ge {f : Cell → Cell → Cell} {as_ bs : List Cell} {i : Nat}
    (h : min as_.length bs.length ≤ i) : cellAt (zipCells f as_ bs) i = none := by
  rw [cellAt, zipCells, getElem?_rangeMap, if_neg (Nat.not_lt.mpr h)]
  rfl

theorem cellAt_map_cell {g : Cell → Cell} (hg : g none = none) (l : List Cell) (i : Nat) :
    cellAt (l.map g) i = g (cellAt l i) := by
  rw [cellAt, cellAt, List.getElem?_map]
  cases l[i]? with
  | none => simpa using hg.symm
  | some c => rfl

/-- A zip by cellDiv is missing wherever the divisor cell is missing. -/
theorem cellAt_zip_div_none {as_ bs : List Cell} {i : Nat}
    (h : cellAt bs i = none) : cellAt (zipCells cellDiv as_ bs) i = none := by
  rcases Nat.lt_or_ge i (min as_.length bs.length) with hi | hi
  · rw [cellAt_zipCells_lt hi, h]
    cases cellAt as_ i <;> rfl
  · exact cellAt_zipCells_ge hi

theorem ewmMean_length (alpha : ℚ) (l : List ℚ) : (ewmMean alpha l).length = l.length := by
  cases l <;> simp [ewmMean, List.length_scanl]

theorem pct_change_length (xs : List ℚ) : (pct_change xs).length = xs.length := by
  simp [pct_change]

/-! ### Bounds on folds and means -/

theorem sum_le_length_mul (l : List ℚ) (b : ℚ) (h : ∀ x ∈ l, x ≤ b) :
    l.sum ≤ (l.length : ℚ) * b := by
  induction l with
  | nil => simp
  | cons x xs ih =>
      have hx : x ≤ b := h x (List.mem_cons_self x xs)
      have hs : xs.sum ≤ (xs.length : ℚ) * b := ih (fun y hy => h y (List.mem_cons_of_mem x hy))
      calc (x :: xs).sum = x + xs.sum := by simp
        _ ≤ b + (xs.length : ℚ) * b := add_le_add hx hs
        _ = ((x :: xs).length : ℚ) * b := by rw [List.length_cons]; push_cast; ring

theorem length_mul_le_sum (l : List ℚ) (a : ℚ) (h : ∀ x ∈ l, a ≤ x) :
    (l.length : ℚ) * a ≤ l.sum := by
  induction l with
  | nil => simp
  | cons x xs ih =>
      have hx : a ≤ x := h x (List.mem_cons_self x xs)
      have hs : (xs.length : ℚ) * a ≤ xs.sum := ih (fun y hy => h y (List.mem_cons_of_mem x hy))
      calc ((x :: xs).length : ℚ) * a = a + (xs.length : ℚ) * a := by
            rw [List.length_cons]; push_cast; ring
        _ ≤ x + xs.sum := add_le_add hx hs
        _ = (x :: xs).sum := by simp

/-- The mean of a nonempty list of values inside a closed interval stays
inside that interval. -/
theorem meanQ_bounds (l : List ℚ) (a b : ℚ) (hne : l ≠ [])
    (h : ∀ x ∈ l, a ≤ x ∧ x ≤ b) : a ≤ meanQ l ∧ meanQ l ≤ b := by
  have hn : 0 < (l.length : ℚ) := by
    exact_mod_cast List.length_pos.mpr hne
  constructor
  · rw [meanQ, le_div_iff₀ hn]
    calc a * (l.length : ℚ) = (l.length : ℚ) * a := mul_comm a _
      _ ≤ l.sum := length_mul_le_sum l a (fun x hx => (h x hx).1)
  · rw [meanQ, div_le_iff₀ hn]
    calc l.sum ≤ (l.length : ℚ) * b := sum_le_length_mul l b (fun x hx => (h x hx).2)
      _ = b * (l.length : ℚ) := mul_comm _ b

theorem foldl_max_mem (x : ℚ) (l : List ℚ) : l.foldl max x ∈ x :: l := by
  induction l generalizing x with
  | nil => simp
  | cons y ys ih =>
      have h := ih (max x y)
      rcases List.mem_cons.mp h with h1 | h1
      · rw [List.foldl_cons, h1]
        rcases max_choice x y with h2 | h2 <;> simp [h2]
      · simp [List.foldl_cons]
        right; right; exact h1

theorem le_foldl_max (x : ℚ) (l : List ℚ) : ∀ y ∈ x :: l, y ≤ l.foldl max x := by
  induction l generalizing x with
  | nil => simp
  | cons z zs ih =>
      intro y hy
      rw [List.foldl_cons]
      rcases List.mem_cons.mp hy with h1 | h1
      · rw [h1]
        exact le_trans (le_max_left x z) (ih (max x z) _ (List.mem_cons_self _ _))
      · rcases List.mem_cons.mp h1 with h2 | h2
        · rw [h2]
          exact le_trans (le_max_right x z) (ih (max x z) _ (List.mem_cons_self _ _))
        · exact ih (max x z) y (List.mem_cons_of_mem _ h2)

theorem foldl_min_mem (x : ℚ) (l : List ℚ) : l.foldl min x ∈ x :: l := by
  induction l generalizing x with
  | nil => simp
  | cons y ys ih =>
      have h := ih (min x y)
      rcases List.mem_cons.mp h with h1 | h1
      · rw [List.foldl_cons, h1]
        rcases min_choice x y with h2 | h2 <;> simp [h2]
      · simp [List.foldl_cons]
        right; right; exact h1

theorem foldl_min_le (x : ℚ) (l : List ℚ) : ∀ y ∈ x :: l, l.foldl min x ≤ y := by
  induction l generalizing x with
  | nil => simp
  | cons z zs ih =>
      intro y hy
      rw [List.foldl_cons]
      rcases List.mem_cons.mp hy with h1 | h1
      · rw [h1]
        exact le_trans (ih (min x z) _ (List.mem_cons_self _ _)) (min_le_left x z)
      · rcases List.mem_cons.mp h1 with h2 | h2
        · rw [h2]
          exact le_trans (ih (min x z) _ (List.mem_cons_self _ _)) (min_le_right x z)
        · exact ih (min x z) y (List.mem_cons_of_mem _ h2)

/-! ### Clip bounds -/

theorem clipQ_bounds (lo hi x : ℚ) (h : lo ≤ hi) :
    lo ≤ clipQ lo hi x ∧ clipQ lo hi x ≤ hi :=
  ⟨le_min (le_max_right x lo) h, min_le_right _ _⟩

/-! ### Sorting lemmas -/

theorem insertBar_of_le (b c : Bar) (cs : List Bar) (h : b.date ≤ c.date) :
    insertBar b (c :: cs) = b :: c :: cs := by
  simp [insertBar, h]

theorem sortByDate_of_sorted (df : List Bar)
    (h : df.Pairwise (fun a b => a.date ≤ b.date)) : sortByDate df = df := by
  induction df with
  | nil => rfl
  | cons b bs ih =>
      have hp := List.pairwise_cons.mp h
      rw [sortByDate, ih hp.2]
      cases bs with
      | nil => rfl
      | cons c cs => exact insertBar_of_le b c cs (hp.1 c (List.mem_cons_self c cs))

/-! ### Definedness of the indicator columns at early indices -/

theorem cellAt_zip_none_right {f : Cell → Cell → Cell} (hf : ∀ x, f x none = none)
    {as_ bs : List Cell} {i : Nat} (h : cellAt bs i = none) :
    cellAt (zipCells f as_ bs) i = none := by
  rcases Nat.lt_or_ge i (min as_.length bs.length) with hi | hi
  · rw [cellAt_zipCells_lt hi, h, hf]
  · exact cellAt_zipCells_ge hi

theorem cellSub_none_right (x : Cell) : cellSub x none = none := by
  cases x <;> rfl

theorem cellDiv_none_right (x : Cell) : cellDiv x none = none := by
  cases x <;> rfl

theorem vol_amp_col_head (dfa : List Bar) : cellAt (vol_amp_col dfa) 0 = none :=
  cellAt_roll_trailing_early 2 2 meanQ _ 0 (by omega)

theorem vol_ratio_col_head (sqrtQ : ℚ → ℚ) (dfa : List Bar) (agg : Agg) :
    cellAt (vol_ratio_col sqrtQ dfa agg) 0 = none :=
  cellAt_roll_trailing_early 2 2 meanQ _ 0 (by omega)

theorem valuation_col_head (dfa : List Bar) : cellAt (valuation_col dfa) 0 = none := by
  apply cellAt_roll2c_both_none
  · exact cellAt_zip_none_right cellDiv_none_right
      (cellAt_roll_trailing_early 10 5 meanQ _ 0 (by omega))
  · exact cellAt_zip_none_right cellDiv_none_right
      (cellAt_roll_trailing_early 10 5 meanQ _ 1 (by omega))

theorem sentiment_col_head (dfa : List Bar) : cellAt (sentiment_col dfa) 0 = none := by
  apply cellAt_roll2c_both_none
  · rw [cellAt_map_cell rfl]
    rw [cellAt_zip_none_right cellDiv_none_right
      (cellAt_zip_none_right cellSub_none_right
        (cellAt_roll_trailing_early 10 5 minAgg _ 0 (by omega)))]
    rfl
  · rw [cellAt_map_cell rfl]
    rw [cellAt_zip_none_right cellDiv_none_right
      (cellAt_zip_none_right cellSub_none_right
        (cellAt_roll_trailing_early 10 5 minAgg _ 1 (by omega)))]
    rfl

theorem vol_amp_col_length (dfa : List Bar) : (vol_amp_col dfa).length = dfa.length := by
  simp [vol_amp_col, roll_length, zipCells_length, ewmMean_length, volumes]

theorem retCol_length (dfa : List Bar) : (retCol dfa).length = dfa.length := by
  simp [retCol, pct_change_length, closes]

theorem vol_ratio_col_length (sqrtQ : ℚ → ℚ) (dfa : List Bar) (agg : Agg) :
    (vol_ratio_col sqrtQ dfa agg).length = dfa.length := by
  simp [vol_ratio_col, roll_length, zipCells_length, retCol, pct_change_length, closes]

theorem valuation_col_length (dfa : List Bar) : (valuation_col dfa).length = dfa.length := by
  simp [valuation_col, roll_length, zipCells_length, closes]

theorem sentiment_col_length (dfa : List Bar) : (sentiment_col dfa).length = dfa.length := by
  simp [sentiment_col, roll_length, zipCells_length, closes]

/-! ### Characterising defined rolling cells -/

theorem join_some (x : Cell) : (some x).join = x := rfl

theorem cellAt_roll_eq_some {w m : Nat} {c : Bool} {f : List ℚ → ℚ} {xs : List Cell}
    {i : Nat} {q : ℚ} (h : cellAt (roll w m c f xs) i = some q) :
    m ≤ (windowVals c w xs i).length ∧ q = f (windowVals c w xs i) := by
  rcases Nat.lt_or_ge i xs.length with hi | hi
  · rw [cellAt, roll_getElem? w m c f xs i hi, join_some] at h
    by_cases hm : m ≤ (windowVals c w xs i).length
    · rw [if_pos hm] at h
      exact ⟨hm, (Option.some.inj h).symm⟩
    · rw [if_neg hm] at h
      exact absurd h (by simp)
  · rw [cellAt_roll_oob hi] at h
    exact absurd h (by simp)

theorem mem_of_getElem?_some {α : Type*} {l : List α} {j : Nat} {a : α}
    (h : l[j]? = some a) : a ∈ l := by
  obtain ⟨hj, rfl⟩ := List.getElem?_eq_some.mp h
  exact List.getElem_mem hj

/-- Every observation of a rolling window is a defined cell of the series. -/
theorem windowVals_mem {c : Bool} {w : Nat} {xs : List Cell} {i : Nat} {x : ℚ}
    (h : x ∈ windowVals c w xs i) : some x ∈ xs := by
  rcases List.mem_filterMap.mp h with ⟨oc, hoc, hj⟩
  rcases List.mem_map.mp hoc with ⟨j, _, rfl⟩
  cases hx : xs[j]? with
  | none => rw [hx] at hj; exact absurd hj (by simp)
  | some cc =>
      rw [hx, join_some] at hj
      rw [hj] at hx
      exact mem_of_getElem?_some hx

/-- Every defined cell of a clipped series lies inside the clip band. -/
theorem mem_map_clip_bounds {lo hi : ℚ} (h : lo ≤ hi) (l : List Cell) (cc : Cell)
    (hm : cc ∈ l.map (cellClip lo hi)) (q : ℚ) (he : cc = some q) :
    lo ≤ q ∧ q ≤ hi := by
  rcases List.mem_map.mp hm with ⟨c, _, rfl⟩
  cases c with
  | none => simp [cellClip] at he
  | some x =>
      have hq : q = clipQ lo hi x := by
        have := he.symm
        simpa [cellClip] using this
      rw [hq]
      exact clipQ_bounds lo hi x h

/-- Every defined cell of a factor series clipped by norm lies in the band
from 0.3 to 4.0. -/
theorem norm_mem_bounds (s : List Cell) (q : ℚ) (h : some q ∈ norm s) :
    (0.3 : ℚ) ≤ q ∧ q ≤ 4.0 :=
  mem_map_clip_bounds (by norm_num) s (some q) h q rfl

/-! ### The weekly bucket aggregation -/

theorem bucketSpec_of_dropna (s : List Bar) (k : Nat) (b : Bar)
    (h : dropnaBucket (rawBucketAt s k) = some b) : bucketSpec s b := by
  rw [rawBucketAt] at h
  cases hgc : s.filter (fun x => weekKey x.date = k) with
  | nil =>
      rw [hgc] at h
      simp [dropnaBucket, firstQ, maxQ, minQ, lastQ] at h
  | cons x t =>
      rw [hgc] at h
      have hcl : lastQ ((x :: t).map Bar.close)
          = some ((t.map Bar.close).getLast?.getD x.close) := by
        rw [lastQ, List.map_cons, List.getLast?_cons]
      rw [hcl] at h
      have hb : b = ⟨k, x.open_, (t.map Bar.high).foldl max x.high,
          (t.map Bar.low).foldl min x.low, (t.map Bar.close).getLast?.getD x.close,
          ((x :: t).map Bar.volume).sum⟩ := by
        have h' := h.symm
        simpa [dropnaBucket, firstQ, maxQ, minQ] using h'
      have hdate : b.date = k := by rw [hb]
      have hopen : b.open_ = x.open_ := by rw [hb]
      have hhigh : b.high = (t.map Bar.high).foldl max x.high := by rw [hb]
      have hlow : b.low = (t.map Bar.low).foldl min x.low := by rw [hb]
      have hclose : b.close = (t.map Bar.close).getLast?.getD x.close := by rw [hb]
      have hvol : b.volume = ((x :: t).map Bar.volume).sum := by rw [hb]
      rw [bucketSpec, constituents, hdate, hgc]
      refine ⟨by simp, ?_, ?_, ?_, ?_, ?_, ?_, hvol⟩
      · rw [hopen, List.map_cons, List.head?_cons]
      · rw [hhigh, List.map_cons]
        exact foldl_max_mem x.high (t.map Bar.high)
      · intro z hz
        rw [List.map_cons] at hz
        rw [hhigh]
        exact le_foldl_max x.high (t.map Bar.high) z hz
      · rw [hlow, List.map_cons]
        exact foldl_min_mem x.low (t.map Bar.low)
      · intro z hz
        rw [List.map_cons] at hz
        rw [hlow]
        exact foldl_min_le x.low (t.map Bar.low) z hz
      · rw [hclose, List.map_cons, List.getLast?_cons]

/-! ### Claim theorems -/

/-- C1: for every annotated series, the raw pre-smoothing score of
compute_score at a row whose three factor cells are defined equals the
weighted sum 0.4 V + 0.3 R + 0.2 VAL + 0.1 S + 0.15 vol-change, where V, R
and VAL are the vol-amp, vol-ratio and valuation cells clipped to the band
from 0.3 to 4.0, and S is the sentiment cell with a missing value replaced
by 0.5 and the result doubled. -/
theorem c1_raw_score_formula (df : IndFrame) (i : Nat) (a r v : ℚ)
    (hi : i < nrows df)
    (ha : cellAt df.vol_amp i = some a)
    (hr : cellAt df.vol_ratio i = some r)
    (hv : cellAt df.valuation i = some v) :
    (rawScore df 0.4 0.3 0.2 0.1)[i]? =
      some (some (0.4 * clipQ 0.3 4.0 a + 0.3 * clipQ 0.3 4.0 r + 0.2 * clipQ 0.3 4.0 v
        + 0.1 * ((cellAt df.sentiment i).getD 0.5 * 2) + 0.15 * atD df.vol_change i)) := by
  rw [rawScore, getElem?_rangeMap, if_pos hi]
  have hna : cellAt (norm df.vol_amp) i = some (clipQ 0.3 4.0 a) := by
    rw [norm, cellAt_map_cell rfl, ha]
    rfl
  have hnr : cellAt (norm df.vol_ratio) i = some (clipQ 0.3 4.0 r) := by
    rw [norm, cellAt_map_cell rfl, hr]
    rfl
  have hnv : cellAt (norm df.valuation) i = some (clipQ 0.3 4.0 v) := by
    rw [norm, cellAt_map_cell rfl, hv]
    rfl
  simp only [scoreAt, hna, hnr, hnv]

/-- Witness for C1: a one-row frame with unit factor cells, raw sentiment
one half and zero volume change scores exactly 1 before smoothing. -/
theorem c1_raw_score_formula_witness :
    0 < nrows wFrame ∧ (rawScore wFrame 0.4 0.3 0.2 0.1)[0]? = some (some 1) := by
  refine ⟨by decide, ?_⟩
  have h := c1_raw_score_formula wFrame 0 1 1 1 (by decide) rfl rfl rfl
  rw [h]
  norm_num [clipQ, atD, wFrame, cellAt]

/-- C3 counterexample: the code defines no error path of its own for an
empty series.  The driver merely skips an absent-or-empty fetch result
before the pipeline is reached, and the daily pipeline branch applied
directly to an empty series completes, returning an empty annotated frame
instead of failing. -/
theorem c3_counterexample :
    mainStock (fun q => q) (some []) = none ∧
    (runPipeline (fun q => q) []).1.bars = [] ∧
    (runPipeline (fun q => q) []).1.lp_score = [] :=
  ⟨rfl, rfl, rfl⟩

/-- C3 amended: when the fetched data is absent or empty the driver skips
the instrument without invoking the pipeline; the daily pipeline branch
applied to an empty series completes with an empty annotated frame; no
dedicated data error exists anywhere in the code. -/
theorem c3_empty_input_skipped (sqrtQ : ℚ → ℚ) :
    mainStock sqrtQ none = none ∧ mainStock sqrtQ (some []) = none ∧
    (runPipeline sqrtQ []).1.bars = [] ∧ (runPipeline sqrtQ []).1.lp_score = [] :=
  ⟨rfl, rfl, rfl, rfl⟩

/-- C4: the driver computes the daily and the weekly annotated series as
score of indicators of resample applied to the one original source series;
the weekly branch never consumes the annotated daily result. -/
theorem c4_pipeline_branches (sqrtQ : ℚ → ℚ) (df : List Bar) :
    runPipeline sqrtQ df =
      (compute_score_default (indicator_columns sqrtQ (resample_ohlcv df Agg.daily) Agg.daily),
       compute_score_default (indicator_columns sqrtQ (resample_ohlcv df Agg.weekly) Agg.weekly)) :=
  rfl

/-- C7: compute_score returns a frame agreeing with its input on every
pre-existing column, differing only by the added lp-score column; the
source operates on a copy and the caller's frame is untouched. -/
theorem c7_compute_score_frame_effect (df : IndFrame) (wv wr wl ws : ℚ) :
    (compute_score df wv wr wl ws).bars = df.bars ∧
    (compute_score df wv wr wl ws).ret = df.ret ∧
    (compute_score df wv wr wl ws).vol_change = df.vol_change ∧
    (compute_score df wv wr wl ws).vol_amp = df.vol_amp ∧
    (compute_score df wv wr wl ws).vol_ratio = df.vol_ratio ∧
    (compute_score df wv wr wl ws).valuation = df.valuation ∧
    (compute_score df wv wr wl ws).sentiment = df.sentiment ∧
    (compute_score df wv wr wl ws).lp_score =
      roll 2 2 true meanQ (rawScore df wv wr wl ws) :=
  ⟨rfl, rfl, rfl, rfl, rfl, rfl, rfl, rfl⟩

/-- C8: the composed pipeline is deterministic; two runs of score after
indicators on the same input series and resolution are equal.  The
embedded pipeline is a pure function of its input, as the source functions
read no state beyond their arguments. -/
theorem c8_two_run_equality (sqrtQ : ℚ → ℚ) (df : List Bar) (agg : Agg) :
    compute_score_default (compute_indicators sqrtQ df agg) =
      compute_score_default (compute_indicators sqrtQ df agg) :=
  rfl

/-- C9: the lp-score of the final bar is always missing - the centered
2-bar smoothing window at the last index would need the bar after it. -/
theorem c9_last_lp_score_missing (df : IndFrame) (wv wr wl ws : ℚ)
    (h : df.bars ≠ []) :
    (compute_score df wv wr wl ws).lp_score.getLast? = some none := by
  have hn : 0 < nrows df := List.length_pos.mpr h
  have hlp : (compute_score df wv wr wl ws).lp_score =
      roll 2 2 true meanQ (rawScore df wv wr wl ws) := rfl
  have hSlen : (rawScore df wv wr wl ws).length = nrows df := by
    simp [rawScore]
  rw [hlp, List.getLast?_eq_getElem?, roll_length, hSlen]
  exact roll2c_getElem?_last meanQ _ (nrows df - 1)
    (by rw [hSlen]; omega) (by rw [hSlen]; omega)

/-- Witness for C9: on the concrete one-row frame the last lp-score cell
is missing. -/
theorem c9_last_lp_score_missing_witness :
    wFrame.bars ≠ [] ∧
    (compute_score wFrame 0.4 0.3 0.2 0.1).lp_score.getLast? = some none :=
  ⟨by decide, c9_last_lp_score_missing wFrame 0.4 0.3 0.2 0.1 (by decide)⟩

/-- C2: every bucket produced by the weekly resampling of a
strictly-date-sorted daily series satisfies the bucket specification: its
constituents (the bars of its week) are nonempty, its open is the first
constituent's open, its high and low are the maximum high and minimum low
of the constituents, its close is the last constituent's close, and its
volume is the exact sum of constituent volumes. -/
theorem c2_weekly_bucket_aggregation (df : List Bar)
    (hs : df.Pairwise (fun a b => a.date < b.date)) (b : Bar)
    (hb : b ∈ resample_ohlcv df Agg.weekly) : bucketSpec df b := by
  have hsorted : sortByDate df = df :=
    sortByDate_of_sorted df (hs.imp (fun hab => Nat.le_of_lt hab))
  have he : resample_ohlcv df Agg.weekly = resampleWeekly df := rfl
  rw [he, resampleWeekly, hsorted] at hb
  cases df with
  | nil => simp at hb
  | cons b0 bs0 =>
      rcases List.mem_filterMap.mp hb with ⟨r, hr, hdrop⟩
      rcases List.mem_map.mp hr with ⟨k, _, rfl⟩
      exact bucketSpec_of_dropna (b0 :: bs0) k b hdrop

/-- Witness for C2: a Thursday bar and a Friday bar of one week aggregate
to the expected single weekly bucket. -/
theorem c2_weekly_bucket_aggregation_witness :
    ([wB1, wB2].Pairwise (fun a b => a.date < b.date)) ∧ bucketSpec [wB1, wB2] wBucket := by
  have hb : wBucket ∈ resample_ohlcv [wB1, wB2] Agg.weekly := by
    norm_num [resample_ohlcv, resampleWeekly, sortByDate, insertBar, weekKey, fridayRange,
      rawBucketAt, dropnaBucket, firstQ, maxQ, minQ, lastQ, wB1, wB2, wBucket,
      List.filter, List.filterMap_cons]
  exact ⟨by decide, c2_weekly_bucket_aggregation [wB1, wB2] (by decide) wBucket hb⟩

set_option maxHeartbeats 1000000 in
/-- C5: a rolling computation short of observations never raises: each of
the four indicator columns is missing at its first row for any input (their
final smoothing passes require two observations), and on a resampled
series of at most one row every cell of all four columns is missing -
missing values, never zeros, and the computation is a total function. -/
theorem c5_insufficient_window_missing (sqrtQ : ℚ → ℚ) (df : List Bar) (agg : Agg) :
    (cellAt (compute_indicators sqrtQ df agg).vol_amp 0 = none ∧
     cellAt (compute_indicators sqrtQ df agg).vol_ratio 0 = none ∧
     cellAt (compute_indicators sqrtQ df agg).valuation 0 = none ∧
     cellAt (compute_indicators sqrtQ df agg).sentiment 0 = none) ∧
    ((resample_ohlcv df agg).length ≤ 1 →
      ∀ i : Nat,
        cellAt (compute_indicators sqrtQ df agg).vol_amp i = none ∧
        cellAt (compute_indicators sqrtQ df agg).vol_ratio i = none ∧
        cellAt (compute_indicators sqrtQ df agg).valuation i = none ∧
        cellAt (compute_indicators sqrtQ df agg).sentiment i = none) := by
  have h1 : (compute_indicators sqrtQ df agg).vol_amp
      = vol_amp_col (resample_ohlcv df agg) := rfl
  have h2 : (compute_indicators sqrtQ df agg).vol_ratio
      = vol_ratio_col sqrtQ (resample_ohlcv df agg) agg := rfl
  have h3 : (compute_indicators sqrtQ df agg).valuation
      = valuation_col (resample_ohlcv df agg) := rfl
  have h4 : (compute_indicators sqrtQ df agg).sentiment
      = sentiment_col (resample_ohlcv df agg) := rfl
  rw [h1, h2, h3, h4]
  refine ⟨⟨vol_amp_col_head _, vol_ratio_col_head sqrtQ _ agg,
    valuation_col_head _, sentiment_col_head _⟩, ?_⟩
  intro hlen i
  cases i with
  | zero =>
      exact ⟨vol_amp_col_head _, vol_ratio_col_head sqrtQ _ agg,
        valuation_col_head _, sentiment_col_head _⟩
  | succ j =>
      refine ⟨cellAt_oob ?_, cellAt_oob ?_, cellAt_oob ?_, cellAt_oob ?_⟩
      · rw [vol_amp_col_length]
        omega
      · rw [vol_ratio_col_length]
        omega
      · rw [valuation_col_length]
        omega
      · rw [sentiment_col_length]
        omega

/-- Witness for C5: a one-bar daily series meets the short-series
hypothesis, and all four indicator cells of its only row are missing. -/
theorem c5_insufficient_window_missing_witness :
    (resample_ohlcv [wBar] Agg.daily).length ≤ 1 ∧
    (cellAt (compute_indicators (fun q => q) [wBar] Agg.daily).vol_amp 0 = none ∧
     cellAt (compute_indicators (fun q => q) [wBar] Agg.daily).vol_ratio 0 = none ∧
     cellAt (compute_indicators (fun q => q) [wBar] Agg.daily).valuation 0 = none ∧
     cellAt (compute_indicators (fun q => q) [wBar] Agg.daily).sentiment 0 = none) :=
  ⟨by decide,
    (c5_insufficient_window_missing (fun q => q) [wBar] Agg.daily).2 (by decide) 0⟩

/-- C6: every entry of the vol-change column lies between -2 and 2
(missing changes are replaced by 0, inside the band), and every defined
cell of the clipped factor series compute_score builds with norm lies
between 0.3 and 4.0. -/
theorem c6_clip_bounds (sqrtQ : ℚ → ℚ) (df : List Bar) (agg : Agg) (dfa : IndFrame) :
    (∀ q ∈ (compute_indicators sqrtQ df agg).vol_change, (-2 : ℚ) ≤ q ∧ q ≤ 2) ∧
    (∀ q : ℚ, some q ∈ norm dfa.vol_amp → (0.3 : ℚ) ≤ q ∧ q ≤ 4.0) ∧
    (∀ q : ℚ, some q ∈ norm dfa.vol_ratio → (0.3 : ℚ) ≤ q ∧ q ≤ 4.0) ∧
    (∀ q : ℚ, some q ∈ norm dfa.valuation → (0.3 : ℚ) ≤ q ∧ q ≤ 4.0) := by
  refine ⟨?_, fun q h => norm_mem_bounds _ q h, fun q h => norm_mem_bounds _ q h,
    fun q h => norm_mem_bounds _ q h⟩
  intro q hq
  have hq' : q ∈ (pct_change (volumes (resample_ohlcv df agg))).map
      (fun c => ((cellClip (-2) 2 c).getD 0)) := hq
  rcases List.mem_map.mp hq' with ⟨c, _, rfl⟩
  cases c with
  | none => norm_num [cellClip]
  | some x =>
      have hbnd := clipQ_bounds (-2) 2 x (by norm_num)
      simpa [cellClip] using hbnd

/-- Witness for C6: the one-bar daily series has the vol-change entry 0,
inside the band, and the clipped unit factors of the concrete frame lie
inside the factor band. -/
theorem c6_clip_bounds_witness :
    ((0 : ℚ) ∈ (compute_indicators (fun q => q) [wBar] Agg.daily).vol_change ∧
      (-2 : ℚ) ≤ 0 ∧ (0 : ℚ) ≤ 2) ∧
    (some (1 : ℚ) ∈ norm wFrame.vol_amp ∧ (0.3 : ℚ) ≤ 1 ∧ (1 : ℚ) ≤ 4.0) ∧
    (some (1 : ℚ) ∈ norm wFrame.vol_ratio ∧ (0.3 : ℚ) ≤ 1 ∧ (1 : ℚ) ≤ 4.0) ∧
    (some (1 : ℚ) ∈ norm wFrame.valuation ∧ (0.3 : ℚ) ≤ 1 ∧ (1 : ℚ) ≤ 4.0) := by
  have hm0 : (0 : ℚ) ∈ (compute_indicators (fun q => q) [wBar] Agg.daily).vol_change := by
    show (0 : ℚ) ∈ vol_change_col [wBar]
    norm_num [vol_change_col, pct_change, volumes, cellClip, wBar]
  have hm1 : some (1 : ℚ) ∈ norm wFrame.vol_amp := by
    norm_num [norm, wFrame, cellClip, clipQ]
  have hm2 : some (1 : ℚ) ∈ norm wFrame.vol_ratio := by
    norm_num [norm, wFrame, cellClip, clipQ]
  have hm3 : some (1 : ℚ) ∈ norm wFrame.valuation := by
    norm_num [norm, wFrame, cellClip, clipQ]
  refine ⟨⟨hm0, ?_⟩, ⟨hm1, ?_⟩, ⟨hm2, ?_⟩, ⟨hm3, ?_⟩⟩
  · exact (c6_clip_bounds (fun q => q) [wBar] Agg.daily wFrame).1 0 hm0
  · exact (c6_clip_bounds (fun q => q) [wBar] Agg.daily wFrame).2.1 1 hm1
  · exact (c6_clip_bounds (fun q => q) [wBar] Agg.daily wFrame).2.2.1 1 hm2
  · exact (c6_clip_bounds (fun q => q) [wBar] Agg.daily wFrame).2.2.2 1 hm3

/-- C10: every defined cell of the sentiment column lies in the unit
interval: the raw range position is clipped to the unit interval and the
centered 2-bar mean of such values stays inside it. -/
theorem c10_sentiment_unit_interval (sqrtQ : ℚ → ℚ) (df : List Bar) (agg : Agg)
    (i : Nat) (q : ℚ)
    (h : cellAt (compute_indicators sqrtQ df agg).sentiment i = some q) :
    0 ≤ q ∧ q ≤ 1 := by
  have h' : cellAt (roll 2 2 true meanQ ((zipCells cellDiv
      (zipCells cellSub ((closes (resample_ohlcv df agg)).map some)
        (roll 10 5 false minAgg ((closes (resample_ohlcv df agg)).map some)))
      (zipCells cellSub (roll 10 5 false maxAgg ((closes (resample_ohlcv df agg)).map some))
        (roll 10 5 false minAgg ((closes (resample_ohlcv df agg)).map some)))).map
      (cellClip 0 1))) i = some q := h
  obtain ⟨hlen, hq⟩ := cellAt_roll_eq_some h'
  rw [hq]
  refine meanQ_bounds _ 0 1 ?_ ?_
  · intro hc
    rw [hc] at hlen
    simp at hlen
  · intro x hx
    exact mem_map_clip_bounds (by norm_num) _ _ (windowVals_mem hx) x rfl

/-- Witness for C10: on the six-bar ramp series the sentiment cell at the
fifth row is defined with value 1, inside the unit interval. -/
theorem c10_sentiment_unit_interval_witness :
    cellAt (compute_indicators (fun q => q) wSeries Agg.daily).sentiment 4 = some 1 ∧
    (0 : ℚ) ≤ 1 ∧ (1 : ℚ) ≤ 1 := by
  have hsent : (compute_indicators (fun q => q) wSeries Agg.daily).sentiment =
      roll 2 2 true meanQ ((zipCells cellDiv
        (zipCells cellSub ((closes wSeries).map some)
          (roll 10 5 false minAgg ((closes wSeries).map some)))
        (zipCells cellSub (roll 10 5 false maxAgg ((closes wSeries).map some))
          (roll 10 5 false minAgg ((closes wSeries).map some)))).map (cellClip 0 1)) := rfl
  have hA : (closes wSeries).map some
      = [some 0, some 1, some 1, some 1, some 1, some 1] := rfl
  have hMax : roll 10 5 false maxAgg [some 0, some 1, some 1, some 1, some 1, some 1]
      = [none, none, none, none, some 1, some 1] := rfl
  have hMin : roll 10 5 false minAgg [some 0, some 1, some 1, some 1, some 1, some 1]
      = [none, none, none, none, some 0, some 0] := rfl
  have hS1 : zipCells cellSub [some 0, some 1, some 1, some 1, some 1, some 1]
      [none, none, none, none, some 0, some 0]
      = [none, none, none, none, some 1, some 1] := by
    have hr : List.range 6 = [0, 1, 2, 3, 4, 5] := rfl
    norm_num [zipCells, cellAt, cellSub, hr]
  have hS2 : zipCells cellSub [none, none, none, none, some 1, some 1]
      [none, none, none, none, some 0, some 0]
      = [none, none, none, none, some 1, some 1] := by
    have hr : List.range 6 = [0, 1, 2, 3, 4, 5] := rfl
    norm_num [zipCells, cellAt, cellSub, hr]
  have hDiv : zipCells cellDiv [none, none, none, none, some 1, some 1]
      [none, none, none, none, some 1, some 1]
      = [none, none, none, none, some 1, some 1] := by
    have hr : List.range 6 = [0, 1, 2, 3, 4, 5] := rfl
    norm_num [zipCells, cellAt, cellDiv, hr]
  have hClip : ([none, none, none, none, some 1, some 1] : List Cell).map (cellClip 0 1)
      = [none, none, none, none, some 1, some 1] := rfl
  have hRoll : roll 2 2 true meanQ [none, none, none, none, some 1, some 1]
      = [none, none, none, none, some 1, none] := by
    have hr : List.range 6 = [0, 1, 2, 3, 4, 5] := rfl
    have hr2 : List.range 2 = [0, 1] := rfl
    norm_num [roll, windowVals, windowIdx, meanQ, hr, hr2, List.filterMap_cons,
      Function.comp]
  have hev : cellAt (compute_indicators (fun q => q) wSeries Agg.daily).sentiment 4
      = some 1 := by
    rw [hsent, hA, hMax, hMin, hS1, hS2, hDiv, hClip, hRoll]
    rfl
  exact ⟨hev, c10_sentiment_unit_interval (fun q => q) wSeries Agg.daily 4 1 hev⟩

end LPM
